import Mathlib

/-!
# Verification of the `fileinfo` extension-to-handler dispatch utility

This development shallowly embeds the `fileinfo` command line utility:

* `src/fileinfo/plugins.py` — the `file_type` registration decorator, the
  plugin discovery pass `find_all_functions`, and the built-in `default`
  (fallback) handler;
* `src/fileinfo/__main__.py` — the per-file dispatcher `process_file`, the
  path collector `find_all_files` and the driver loop;
* `src/fileinfo_text_plugin.py` — the `.txt` handler `process_txt`;
* `src/fileinfo_csv_plugin.py` — the `.csv` handler `process_csv`.

Regular-expression matching (`re.match`) is embedded as a Brzozowski
derivative matcher over a small regex AST, together with a declarative
match semantics `RMatch` and a proof that the matcher decides the
"anchored prefix" relation: `re.match(p, s)` succeeds iff some prefix of
`s` is in the language of `p`.
-/

/-! ## Regular expressions

A regex AST covering the constructs used by the repository's patterns
(`".*"`, `"\.csv"`, `"\.txt"`): the empty language, the empty string,
a literal character, `.` (any character except newline, as in Python
`re`), concatenation, alternation and Kleene star. -/

inductive Regex where
  | emp : Regex
  | eps : Regex
  | chr : Char → Regex
  | dot : Regex
  | cat : Regex → Regex → Regex
  | alt : Regex → Regex → Regex
  | star : Regex → Regex
deriving DecidableEq, Repr

/-- Declarative language membership: `RMatch r s` says the whole character
list `s` is in the language of `r`.  `dot` matches any single character
other than a newline, as Python's `.` does. -/
inductive RMatch : Regex → List Char → Prop where
  | eps : RMatch .eps []
  | chr (c : Char) : RMatch (.chr c) [c]
  | dot (c : Char) : c ≠ '\n' → RMatch .dot [c]
  | cat {r1 r2 s1 s2} : RMatch r1 s1 → RMatch r2 s2 →
      RMatch (.cat r1 r2) (s1 ++ s2)
  | altL {r1 r2 s} : RMatch r1 s → RMatch (.alt r1 r2) s
  | altR {r1 r2 s} : RMatch r2 s → RMatch (.alt r1 r2) s
  | starNil (r) : RMatch (.star r) []
  | starCons {r s1 s2} : RMatch r s1 → RMatch (.star r) s2 →
      RMatch (.star r) (s1 ++ s2)

/-- Does `r` accept the empty string? -/
def Regex.nullable : Regex → Bool
  | .emp => false
  | .eps => true
  | .chr _ => false
  | .dot => false
  | .cat r1 r2 => r1.nullable && r2.nullable
  | .alt r1 r2 => r1.nullable || r2.nullable
  | .star _ => true

/-- Brzozowski derivative of `r` with respect to the character `a`. -/
def Regex.deriv : Regex → Char → Regex
  | .emp, _ => .emp
  | .eps, _ => .emp
  | .chr c, a => if a = c then .eps else .emp
  | .dot, a => if a = '\n' then .emp else .eps
  | .cat r1 r2, a =>
      if r1.nullable then .alt (.cat (r1.deriv a) r2) (r2.deriv a)
      else .cat (r1.deriv a) r2
  | .alt r1 r2, a => .alt (r1.deriv a) (r2.deriv a)
  | .star r, a => .cat (r.deriv a) (.star r)

/-- Anchored prefix matching, the semantics of Python's `re.match`: the
match must start at position 0, but need not consume the whole string. -/
def Regex.prefixMatch (r : Regex) : List Char → Bool
  | [] => r.nullable
  | c :: cs => r.nullable || (r.deriv c).prefixMatch cs

/-- `re.match(r, s)` (as a Boolean) on a Lean string. -/
def reMatch (r : Regex) (s : String) : Bool :=
  r.prefixMatch s.data

/-- The regex denoted by a literal string (each character matched
exactly; the Python sources write these with backslash escapes,
e.g. `r"\.csv"` denotes the literal characters `.csv`). -/
def Regex.lit : List Char → Regex
  | [] => .eps
  | c :: cs => .cat (.chr c) (Regex.lit cs)

/-- The catch-all pattern `".*"` used by the fallback handler. -/
def catchAll : Regex := .star .dot

/-- The pattern `r"\.csv"` of the CSV plugin. -/
def csvPattern : Regex := Regex.lit ['.', 'c', 's', 'v']

/-- The pattern `r"\.txt"` of the text plugin. -/
def txtPattern : Regex := Regex.lit ['.', 't', 'x', 't']

/-! ## Data model

`PyPath` models the `pathlib.Path` value handed to handlers, together
with the file-system facts the handlers read from it: `resolved` is
`str(path.resolve())`, `suffix` is `path.suffix` (the extension with its
leading dot, `""` when the file has none), `size` is
`path.stat().st_size`, `content` is `path.read_text()`, and `csvRows` is
the list of rows that `csv.reader` yields for the file's contents. -/

structure PyPath where
  resolved : String
  suffix : String
  size : Nat
  content : String
  csvRows : List (List String)
deriving DecidableEq, Repr

/-- The observable outcome of running one handler (a Python generator)
on one path: the lines it yields, in order, and whether it raises after
yielding them (`raises = true`) or finishes normally. -/
structure HandlerRun where
  lines : List String
  raises : Bool
deriving DecidableEq, Repr

/-- A registration entry: a compiled extension pattern paired with the
handler function it maps to (one element of the `processor_functions`
list in `__main__.py`). -/
structure Entry where
  pattern : Regex
  handler : PyPath → HandlerRun

/-- Observable events of a dispatch run: `called i` is the
`LOG.debug("==> Calling %s", processor)` record for entry `i`,
`debugErr i` the diagnostic `LOG.debug("ERROR running ...", exc_info=True)`
record, and `info msg` one `LOG.info` emission (an output line group). -/
inductive Event where
  | called (idx : Nat)
  | debugErr (idx : Nat)
  | info (msg : String)
deriving DecidableEq, Repr

/-! ## The dispatcher (`process_file` in `__main__.py`)

The loop body: skip the entry unless `re.match(pattern, path.suffix)`
succeeds; otherwise log the call, then evaluate
`LOG.info("\n".join(map(str, processor(path))))` inside `try`, which
first materialises the whole generator (so a raise discards every
yielded line) and only then emits the joined text; an exception is
caught and logged at debug level. After the loop one blank line is
emitted via `LOG.info("")`. -/

def processEntry (path : PyPath) (idx : Nat) (e : Entry) : List Event :=
  if reMatch e.pattern path.suffix then
    Event.called idx ::
      (let run := e.handler path
       if run.raises then [Event.debugErr idx]
       else [Event.info (String.intercalate "\n" run.lines)])
  else []

def processFrom (path : PyPath) : Nat → List Entry → List Event
  | _, [] => []
  | idx, e :: rest => processEntry path idx e ++ processFrom path (idx + 1) rest

def process_file (path : PyPath) (entries : List Entry) : List Event :=
  processFrom path 0 entries ++ [Event.info ""]

/-- The entry indices whose handlers the dispatcher invoked, in
invocation order. -/
def calledIndices (evs : List Event) : List Nat :=
  evs.filterMap fun ev =>
    match ev with
    | Event.called i => some i
    | _ => none

/-- Specification-side list of the indices (counting from `i`) of the
entries whose pattern matches the given extension, in registry order. -/
def matchingIndicesFrom (ext : String) : Nat → List Entry → List Nat
  | _, [] => []
  | i, e :: rest =>
    (if reMatch e.pattern ext then [i] else []) ++
      matchingIndicesFrom ext (i + 1) rest

/-- The driver's inner loop over the already-collected files: each file
is processed independently with the same registry. -/
def processAllFiles (files : List PyPath) (entries : List Entry) :
    List Event :=
  files.flatMap (fun f => process_file f entries)

/-! ## The built-in fallback handler (`default` in `plugins.py`) -/

/-- The `default` handler: resolved path, then `"<SUFFIX> file"` (or
`"File"` for an empty suffix), then the size in bytes.  Registered with
`@file_type(".*")`. -/
def plugins.default (path : PyPath) : HandlerRun :=
  { lines := [path.resolved,
              if path.suffix = "" then "File"
              else path.suffix.toUpper ++ " file",
              toString path.size ++ " bytes"],
    raises := false }

/-! ## The text plugin (`fileinfo_text_plugin.py`) -/

/-- Split a character list at every character satisfying `p`, keeping
the (possibly empty) pieces between separators — the semantics shared by
Python's `str.split(sep)` (for `p = (· = sep)`). -/
def splitChars (p : Char → Bool) : List Char → List (List Char)
  | [] => [[]]
  | c :: cs =>
    let r := splitChars p cs
    if p c then [] :: r
    else
      match r with
      | [] => [[c]]
      | w :: ws => (c :: w) :: ws

/-- Python's `str.split(sep)` for a one-character separator: adjacent
separators and a trailing separator produce empty segments. -/
def pySplitSep (sep : Char) (l : List Char) : List (List Char) :=
  splitChars (fun c => c = sep) l

/-- Python's separator-less `str.split()`: split on whitespace and drop
the empty pieces. -/
def pySplitWhitespace (s : String) : List (List Char) :=
  (splitChars Char.isWhitespace s.data).filter (fun w => w ≠ [])

/-- `process_txt`: `Lines` is `len(contents.split('\n'))`, `Words` is
`len(contents.split())`.  Registered with `@file_type(r"\.txt")`. -/
def process_txt (path : PyPath) : HandlerRun :=
  { lines := ["Lines " ++ toString (pySplitSep '\n' path.content.data).length,
              "Words " ++ toString (pySplitWhitespace path.content).length],
    raises := false }

/-! ## The CSV plugin (`fileinfo_csv_plugin.py`) -/

/-- Python's `max` over a list of naturals (only used on non-empty
lists; on `[]` the Python call raises, handled at the call site). -/
def pyMaxNat (l : List Nat) : Nat := l.foldl Nat.max 0

/-- `process_csv`: yields `"Rows <len(contents)>"`, then
`"Columns <max(len(r) for r in contents)>"`.  When the file has no rows
the generator yields `"Rows 0"` and then raises `ValueError` inside
`max()`.  Registered with `@file_type(r"\.csv")`. -/
def process_csv (path : PyPath) : HandlerRun :=
  if path.csvRows.isEmpty then
    { lines := ["Rows 0"], raises := true }
  else
    { lines := ["Rows " ++ toString path.csvRows.length,
                "Columns " ++ toString (pyMaxNat (path.csvRows.map List.length))],
      raises := false }

/-! ## Plugin discovery (`plugins.py`)

A plugin-tagged function, as `inspect.getmembers(module, _is_plugin_func)`
reports it: the patterns of its `_fileinfo_registered_type` attribute (in
the set's iteration order) and the callable itself. -/

structure PluginFunc where
  patterns : List Regex
  run : PyPath → HandlerRun

/-- `_find_functions_in_module`: `none` models an import that raised (the
`except` arm logs at debug level and contributes nothing); `some funcs`
models a successful import, and every pattern of every tagged member is
paired with its function, in member order then pattern order. -/
def findFunctionsInModule (content : Option (List PluginFunc)) :
    List (Regex × PluginFunc) :=
  match content with
  | none => []
  | some funcs => funcs.flatMap (fun f => f.patterns.map (fun p => (p, f)))

/-- One top-level module reported by `pkgutil.iter_modules()`: either a
plain module whose import yields tagged functions (or fails, `none`), or
a package whose import yields a list of submodule import results (or
fails, `none`). -/
inductive TopModule where
  | plain (name : String) (content : Option (List PluginFunc))
  | pkg (name : String) (subs : Option (List (Option (List PluginFunc))))

def TopModule.name : TopModule → String
  | .plain n _ => n
  | .pkg n _ => n

/-- The name filter in `find_all_functions`:
`all((module_name.startswith("fileinfo"), module_name.endswith("plugin")))`. -/
def moduleNameOk (n : String) : Bool :=
  n.startsWith "fileinfo" && n.endsWith "plugin"

/-- The per-module part of the discovery loop: skip a module failing the
name filter, walk a package's submodules, or inspect a plain module. -/
def processTopModule (m : TopModule) : List (Regex × PluginFunc) :=
  if moduleNameOk m.name then
    match m with
    | .plain _ content => findFunctionsInModule content
    | .pkg _ none => []
    | .pkg _ (some subs) => subs.flatMap findFunctionsInModule
  else []

/-- The fallback registration living in `fileinfo.plugins` itself: the
sole member of that module carrying the registration attribute is
`default`, tagged with the single pattern `".*"`. -/
def defaultFunc : PluginFunc := ⟨[catchAll], plugins.default⟩

def pluginsModuleFuncs : List PluginFunc := [defaultFunc]

/-- `find_all_functions`: first `_find_functions_in_module(__name__)` on
`fileinfo.plugins` (always importable — it is the running module — and
contributing exactly the `default` registration), then the filtered scan
over the top-level modules in `pkgutil.iter_modules()` order. -/
def find_all_functions (modules : List TopModule) :
    List (Regex × PluginFunc) :=
  findFunctionsInModule (some pluginsModuleFuncs) ++
    modules.flatMap processTopModule

/-- Discovered pairs, as the `processor_functions` entries handed to
`process_file`. -/
def toEntries (l : List (Regex × PluginFunc)) : List Entry :=
  l.map (fun pf => { pattern := pf.1, handler := pf.2.run })

/-! ## The registration decorator (`file_type`)

Applying the decorator produced by `file_type(*patterns)` to a function
whose current `_fileinfo_registered_type` attribute is `attr`: an
existing set is updated in place, otherwise a fresh set is attached. -/

def file_type (patterns : List String) (attr : Option (Finset String)) :
    Option (Finset String) :=
  match attr with
  | some s => some (s ∪ patterns.toFinset)
  | none => some patterns.toFinset

/-- The attribute state after a sequence of `file_type(...)` decorator
applications to one function, starting from an undecorated function. -/
def registrationState (calls : List (List String)) :
    Option (Finset String) :=
  calls.foldl (fun st ps => file_type ps st) none

/-! ## Path collection and the driver (`__main__.py`)

`find_all_files` inserts every file path the traversal enumerates into a
set and returns `sorted(...)` of it; the traversal enumeration is
modelled as the input list of path strings. -/

def find_all_files (paths : List String) : List String :=
  List.insertionSort (fun a b => a ≤ b) paths.dedup

/-- The `__main__` driver: build the registry once, then run
`process_file` on each collected path in order.  `fs` maps a path string
to the file-system facts handlers observe about it. -/
def mainRun (fs : String → PyPath) (modules : List TopModule)
    (paths : List String) : List Event :=
  (find_all_files paths).flatMap
    (fun p => process_file (fs p) (toEntries (find_all_functions modules)))

/-! ## Concrete sample inputs -/

def txtSample : PyPath :=
  ⟨"/data/sample.txt", ".txt", 9, "a\nbb\nccc\n", []⟩

def emptyCsvSample : PyPath :=
  ⟨"/data/empty.csv", ".csv", 0, "", []⟩

def csvSample : PyPath :=
  ⟨"/data/table.csv", ".csv", 12, "a\nb,c,d\ne,f\n",
    [["a"], ["b", "c", "d"], ["e", "f"]]⟩

def noExtSample : PyPath :=
  ⟨"/data/README", "", 5, "hello", []⟩

def fallbackEntry : Entry := ⟨catchAll, plugins.default⟩

def csvEntry : Entry := ⟨csvPattern, process_csv⟩

def txtEntry : Entry := ⟨txtPattern, process_txt⟩

/-! ## Regex matcher correctness -/

theorem RMatch.emp_elim {s : List Char} (h : RMatch .emp s) : False := by
  cases h

theorem RMatch.cat_elim {r1 r2 : Regex} {s : List Char}
    (h : RMatch (.cat r1 r2) s) :
    ∃ s1 s2, s = s1 ++ s2 ∧ RMatch r1 s1 ∧ RMatch r2 s2 := by
  cases h with
  | cat h1 h2 => exact ⟨_, _, rfl, h1, h2⟩

theorem RMatch.alt_elim {r1 r2 : Regex} {s : List Char}
    (h : RMatch (.alt r1 r2) s) : RMatch r1 s ∨ RMatch r2 s := by
  cases h with
  | altL h => exact Or.inl h
  | altR h => exact Or.inr h

theorem nullable_iff {r : Regex} : r.nullable = true ↔ RMatch r [] := by
  induction r with
  | emp => simp [Regex.nullable]; intro h; cases h
  | eps => simp [Regex.nullable]; exact .eps
  | chr c => simp [Regex.nullable]; intro h; cases h
  | dot => simp [Regex.nullable]; intro h; cases h
  | cat r1 r2 ih1 ih2 =>
    simp only [Regex.nullable, Bool.and_eq_true, ih1, ih2]
    constructor
    · rintro ⟨h1, h2⟩
      have := RMatch.cat h1 h2
      simpa using this
    · intro h
      obtain ⟨s1, s2, heq, h1, h2⟩ := h.cat_elim
      rcases List.append_eq_nil.mp heq.symm with ⟨e1, e2⟩
      subst e1; subst e2
      exact ⟨h1, h2⟩
  | alt r1 r2 ih1 ih2 =>
    simp only [Regex.nullable, Bool.or_eq_true, ih1, ih2]
    constructor
    · rintro (h | h)
      · exact .altL h
      · exact .altR h
    · intro h
      exact h.alt_elim
  | star r ih =>
    simp [Regex.nullable]
    exact .starNil r

theorem deriv_sound {r : Regex} {a : Char} {s : List Char}
    (h : RMatch (r.deriv a) s) : RMatch r (a :: s) := by
  induction r generalizing s with
  | emp => exact absurd h RMatch.emp_elim
  | eps => exact absurd h RMatch.emp_elim
  | chr c =>
    by_cases hac : a = c
    · simp [Regex.deriv, hac] at h
      cases h
      subst hac
      exact .chr a
    · simp [Regex.deriv, hac] at h
      exact absurd h RMatch.emp_elim
  | dot =>
    by_cases hnl : a = '\n'
    · simp [Regex.deriv, hnl] at h
      exact absurd h RMatch.emp_elim
    · simp [Regex.deriv, hnl] at h
      cases h
      exact .dot a hnl
  | cat r1 r2 ih1 ih2 =>
    by_cases hn : r1.nullable
    · simp only [Regex.deriv, hn, if_pos] at h
      rcases h.alt_elim with h | h
      · obtain ⟨s1, s2, heq, h1, h2⟩ := h.cat_elim
        subst heq
        have := RMatch.cat (ih1 h1) h2
        simpa using this
      · have h10 : RMatch r1 [] := nullable_iff.mp hn
        have := RMatch.cat h10 (ih2 h)
        simpa using this
    · simp only [Regex.deriv, hn, if_neg, Bool.false_eq_true,
        not_false_iff] at h
      obtain ⟨s1, s2, heq, h1, h2⟩ := h.cat_elim
      subst heq
      have := RMatch.cat (ih1 h1) h2
      simpa using this
  | alt r1 r2 ih1 ih2 =>
    rcases h.alt_elim with h | h
    · exact .altL (ih1 h)
    · exact .altR (ih2 h)
  | star r ih =>
    obtain ⟨s1, s2, heq, h1, h2⟩ := h.cat_elim
    subst heq
    have := RMatch.starCons (ih h1) h2
    simpa using this

theorem deriv_complete {r : Regex} {l : List Char} (h : RMatch r l) :
    ∀ a s, l = a :: s → RMatch (r.deriv a) s := by
  induction h with
  | eps => intro a s hl; cases hl
  | chr c =>
    intro a s hl
    cases hl
    simp [Regex.deriv]
    exact .eps
  | dot c hc =>
    intro a s hl
    cases hl
    simp [Regex.deriv, hc]
    exact .eps
  | @cat r1 r2 s1 s2 h1 h2 ih1 ih2 =>
    intro a s hl
    cases s1 with
    | nil =>
      simp at hl
      have hn : r1.nullable = true := nullable_iff.mpr h1
      simp only [Regex.deriv, hn, if_pos]
      exact .altR (ih2 a s hl)
    | cons b s1' =>
      simp at hl
      obtain ⟨hb, hs⟩ := hl
      subst hb
      subst hs
      have hd1 : RMatch (r1.deriv b) s1' := ih1 b s1' rfl
      by_cases hn : r1.nullable
      · simp only [Regex.deriv, hn, if_pos]
        exact .altL (.cat hd1 h2)
      · simp only [Regex.deriv, hn, if_neg, Bool.false_eq_true,
          not_false_iff]
        exact .cat hd1 h2
  | altL h ih =>
    intro a s hl
    exact .altL (ih a s hl)
  | altR h ih =>
    intro a s hl
    exact .altR (ih a s hl)
  | starNil r => intro a s hl; cases hl
  | @starCons r s1 s2 h1 h2 ih1 ih2 =>
    intro a s hl
    cases s1 with
    | nil =>
      simp at hl
      exact ih2 a s hl
    | cons b s1' =>
      simp at hl
      obtain ⟨hb, hs⟩ := hl
      subst hb
      subst hs
      simp only [Regex.deriv]
      exact .cat (ih1 b s1' rfl) h2

theorem deriv_iff {r : Regex} {a : Char} {s : List Char} :
    RMatch (r.deriv a) s ↔ RMatch r (a :: s) :=
  ⟨deriv_sound, fun h => deriv_complete h a s rfl⟩

/-- Correctness of the prefix matcher: `prefixMatch` succeeds on `s` iff
some prefix of `s` is in the language of `r`. -/
theorem prefixMatch_iff {r : Regex} {s : List Char} :
    r.prefixMatch s = true ↔ ∃ p q, s = p ++ q ∧ RMatch r p := by
  induction s generalizing r with
  | nil =>
    simp only [Regex.prefixMatch, nullable_iff]
    constructor
    · intro h
      exact ⟨[], [], rfl, h⟩
    · rintro ⟨p, q, hpq, hm⟩
      rcases List.append_eq_nil.mp hpq.symm with ⟨e1, e2⟩
      subst e1
      exact hm
  | cons c cs ih =>
    simp only [Regex.prefixMatch, Bool.or_eq_true, nullable_iff, ih]
    constructor
    · rintro (h | ⟨p, q, hpq, hm⟩)
      · exact ⟨[], c :: cs, rfl, h⟩
      · exact ⟨c :: p, q, by simp [hpq], deriv_sound hm⟩
    · rintro ⟨p, q, hpq, hm⟩
      cases p with
      | nil =>
        simp at hpq
        exact Or.inl hm
      | cons b p' =>
        simp at hpq
        obtain ⟨hb, hs⟩ := hpq
        subst hb
        exact Or.inr ⟨p', q, hs, deriv_complete hm c p' rfl⟩

theorem catchAll_matches_any (s : String) : reMatch catchAll s = true := by
  unfold reMatch
  cases s.data with
  | nil => rfl
  | cons c cs => rfl

/-! ## Dispatcher lemmas -/

theorem mem_processEntry_called {path : PyPath} {j : Nat} {e : Entry}
    {k : Nat} :
    Event.called k ∈ processEntry path j e ↔
      k = j ∧ reMatch e.pattern path.suffix = true := by
  by_cases hm : reMatch e.pattern path.suffix = true <;>
    by_cases hr : (e.handler path).raises = true <;>
      simp [processEntry, hm, hr]

theorem called_ge {path : PyPath} {l : List Entry} :
    ∀ {j k : Nat}, Event.called k ∈ processFrom path j l → j ≤ k := by
  induction l with
  | nil => intro j k h; simp [processFrom] at h
  | cons e rest ih =>
    intro j k h
    simp only [processFrom, List.mem_append] at h
    rcases h with h | h
    · exact (mem_processEntry_called.mp h).1 ▸ Nat.le_refl j
    · exact Nat.le_of_succ_le (ih h)

theorem mem_processFrom_called {path : PyPath} :
    ∀ (l : List Entry) (j i : Nat) (e : Entry), l.get? i = some e →
      (Event.called (j + i) ∈ processFrom path j l ↔
        reMatch e.pattern path.suffix = true) := by
  intro l
  induction l with
  | nil => intro j i e h; simp at h
  | cons e' rest ih =>
    intro j i e h
    cases i with
    | zero =>
      simp at h
      subst h
      simp only [processFrom, List.mem_append, Nat.add_zero]
      constructor
      · rintro (h | h)
        · exact (mem_processEntry_called.mp h).2
        · exact absurd (called_ge h) (by omega)
      · intro hm
        exact Or.inl (mem_processEntry_called.mpr ⟨rfl, hm⟩)
    | succ i' =>
      simp only [List.get?_cons_succ] at h
      have := ih (j + 1) i' e h
      simp only [processFrom, List.mem_append]
      constructor
      · rintro (hh | hh)
        · have := (mem_processEntry_called.mp hh).1
          omega
        · have heq : j + (i' + 1) = (j + 1) + i' := by omega
          rw [heq] at hh
          exact (ih (j + 1) i' e h).mp hh
      · intro hm
        have heq : j + (i' + 1) = (j + 1) + i' := by omega
        rw [heq]
        exact Or.inr ((ih (j + 1) i' e h).mpr hm)

theorem calledIndices_append (l1 l2 : List Event) :
    calledIndices (l1 ++ l2) = calledIndices l1 ++ calledIndices l2 := by
  simp [calledIndices, List.filterMap_append]

theorem calledIndices_processEntry (path : PyPath) (j : Nat) (e : Entry) :
    calledIndices (processEntry path j e) =
      if reMatch e.pattern path.suffix then [j] else [] := by
  by_cases hm : reMatch e.pattern path.suffix = true <;>
    by_cases hr : (e.handler path).raises = true <;>
      simp [processEntry, calledIndices, hm, hr]

theorem calledIndices_processFrom (path : PyPath) :
    ∀ (l : List Entry) (j : Nat),
      calledIndices (processFrom path j l) =
        matchingIndicesFrom path.suffix j l := by
  intro l
  induction l with
  | nil => intro j; simp [processFrom, matchingIndicesFrom, calledIndices]
  | cons e rest ih =>
    intro j
    simp only [processFrom, matchingIndicesFrom, calledIndices_append,
      calledIndices_processEntry, ih]

theorem processFrom_append (path : PyPath) :
    ∀ (xs ys : List Entry) (j : Nat),
      processFrom path j (xs ++ ys) =
        processFrom path j xs ++ processFrom path (j + xs.length) ys := by
  intro xs
  induction xs with
  | nil => intro ys j; simp [processFrom]
  | cons e rest ih =>
    intro ys j
    simp only [List.cons_append, processFrom, List.length_cons,
      List.append_eq]
    rw [ih ys (j + 1)]
    have : j + 1 + rest.length = j + (rest.length + 1) := by omega
    rw [this, List.append_assoc]

/-! ## Lemmas about `pyMaxNat` -/

theorem le_foldl_max (l : List Nat) : ∀ a : Nat, a ≤ l.foldl Nat.max a := by
  induction l with
  | nil => intro a; simp
  | cons x rest ih =>
    intro a
    simp only [List.foldl_cons]
    exact le_trans (Nat.le_max_left a x) (ih (Nat.max a x))

theorem mem_le_foldl_max (l : List Nat) :
    ∀ (a : Nat), ∀ x ∈ l, x ≤ l.foldl Nat.max a := by
  induction l with
  | nil => simp
  | cons y rest ih =>
    intro a x hx
    simp only [List.foldl_cons]
    rcases List.mem_cons.mp hx with rfl | hx
    · exact le_trans (Nat.le_max_right a x) (le_foldl_max rest (Nat.max a x))
    · exact ih (Nat.max a y) x hx

theorem foldl_max_cases (l : List Nat) :
    ∀ a : Nat, l.foldl Nat.max a = a ∨ l.foldl Nat.max a ∈ l := by
  induction l with
  | nil => intro a; exact Or.inl rfl
  | cons y rest ih =>
    intro a
    simp only [List.foldl_cons]
    rcases ih (Nat.max a y) with h | h
    · rcases Nat.le_total a y with hay | hya
      · have hxy : a.max y = y := Nat.max_eq_right hay
        rw [h, hxy]
        exact Or.inr (List.mem_cons_self y rest)
      · have hxy : a.max y = a := Nat.max_eq_left hya
        rw [h, hxy]
        exact Or.inl rfl
    · exact Or.inr (List.mem_cons_of_mem y h)

theorem le_pyMaxNat {l : List Nat} {x : Nat} (h : x ∈ l) : x ≤ pyMaxNat l :=
  mem_le_foldl_max l 0 x h

theorem pyMaxNat_mem {l : List Nat} (h : l ≠ []) : pyMaxNat l ∈ l := by
  rcases foldl_max_cases l 0 with h0 | hm
  · unfold pyMaxNat
    rw [h0]
    cases l with
    | nil => exact absurd rfl h
    | cons y rest =>
      have hle := mem_le_foldl_max (y :: rest) 0 y (List.mem_cons_self y rest)
      have hy0 : y = 0 := by omega
      rw [← hy0]
      exact List.mem_cons_self y rest
  · exact hm

/-! ## Lemmas about the registration decorator -/

theorem foldl_file_type_some (calls : List (List String)) :
    ∀ s : Finset String,
      calls.foldl (fun st ps => file_type ps st) (some s) =
        some (s ∪ (calls.flatMap id).toFinset) := by
  induction calls with
  | nil => intro s; simp
  | cons ps rest ih =>
    intro s
    show List.foldl (fun st ps => file_type ps st)
        (some (s ∪ ps.toFinset)) rest =
      some (s ∪ ((ps :: rest).flatMap id).toFinset)
    rw [ih (s ∪ ps.toFinset)]
    simp [List.flatMap_cons, List.toFinset_append, Finset.union_assoc]

/-! ## Lemmas about discovery -/

theorem flatMap_processTopModule_nil {modules : List TopModule}
    (h : ∀ m ∈ modules, moduleNameOk m.name = false) :
    modules.flatMap processTopModule = [] := by
  induction modules with
  | nil => rfl
  | cons m rest ih =>
    have h1 : processTopModule m = [] := by
      simp [processTopModule, h m (List.mem_cons_self m rest)]
    simp [List.flatMap_cons, h1,
      ih (fun m' hm' => h m' (List.mem_cons_of_mem m hm'))]

/-! ## Provenance of `info` events -/

theorem mem_processFrom_info {path : PyPath} :
    ∀ (l : List Entry) (j : Nat) (s : String),
      Event.info s ∈ processFrom path j l →
      ∃ e ∈ l, reMatch e.pattern path.suffix = true ∧
        (e.handler path).raises = false ∧
        s = String.intercalate "\n" (e.handler path).lines := by
  intro l
  induction l with
  | nil => intro j s h; simp [processFrom] at h
  | cons e rest ih =>
    intro j s h
    simp only [processFrom, List.mem_append] at h
    rcases h with h | h
    · by_cases hm : reMatch e.pattern path.suffix = true
      · by_cases hr : (e.handler path).raises = true
        · simp [processEntry, hm, hr] at h
        · simp [processEntry, hm, hr] at h
          refine ⟨e, List.mem_cons_self e rest, hm, ?_, h⟩
          simp at hr
          exact hr
      · simp [processEntry, hm] at h
    · obtain ⟨e', he', hm, hr, hs⟩ := ih (j + 1) s h
      exact ⟨e', List.mem_cons_of_mem e he', hm, hr, hs⟩

/-! ## The claims -/

/-- Claim C1: for every registration entry `(P, H)` and file `F`, dispatch
invokes `H` on `F` iff `P` matches `F`'s extension as an anchored prefix
regular-expression match (the match succeeds at position 0 of the
extension but need not consume it entirely), and the matching entries'
handlers are invoked in registry order with no first-match-wins
short-circuit. -/
theorem dispatch_fires_iff_anchored_prefix_match (path : PyPath)
    (entries : List Entry) :
    calledIndices (process_file path entries) =
      matchingIndicesFrom path.suffix 0 entries ∧
    (∀ i e, entries.get? i = some e →
      (Event.called i ∈ process_file path entries ↔
        reMatch e.pattern path.suffix = true)) ∧
    (∀ (r : Regex) (s : String),
      reMatch r s = true ↔ ∃ p q, s.data = p ++ q ∧ RMatch r p) := by
  refine ⟨?_, ?_, ?_⟩
  · simp only [process_file, calledIndices_append, calledIndices_processFrom]
    simp [calledIndices]
  · intro i e h
    have hmain := @mem_processFrom_called path entries 0 i e h
    simp only [Nat.zero_add] at hmain
    simp only [process_file, List.mem_append]
    rw [← hmain]
    constructor
    · rintro (hh | hh)
      · exact hh
      · simp at hh
    · exact Or.inl
  · intro r s
    exact prefixMatch_iff

/-- Witness for C1: the catch-all entry is invoked on a concrete file. -/
theorem dispatch_fires_iff_anchored_prefix_match_witness :
    Event.called 0 ∈ process_file txtSample [fallbackEntry] :=
  ((dispatch_fires_iff_anchored_prefix_match txtSample [fallbackEntry]).2.1 0
      fallbackEntry rfl).mpr (by decide)

/-- Claim C2: a handler that raises is caught inside dispatch: a
diagnostic log record is made for it, the entries before and after it
are processed exactly as they would be on their own, the file's block
still ends with the single appended blank separator line, and a file's
processing never affects later files. -/
theorem handler_failure_isolated (path : PyPath) (xs ys : List Entry)
    (e : Entry) (hm : reMatch e.pattern path.suffix = true)
    (hr : (e.handler path).raises = true) :
    process_file path (xs ++ e :: ys) =
      processFrom path 0 xs ++
        (Event.called xs.length :: Event.debugErr xs.length ::
          (processFrom path (xs.length + 1) ys ++ [Event.info ""])) ∧
    (∀ (f : PyPath) (files : List PyPath) (es : List Entry),
      processAllFiles (f :: files) es =
        process_file f es ++ processAllFiles files es) := by
  constructor
  · simp only [process_file, processFrom_append, Nat.zero_add]
    simp only [processFrom, processEntry, hm, hr, if_pos]
    simp
  · intro f files es
    simp [processAllFiles]

/-- Witness for C2: the CSV handler raising on a rowless `.csv` file is
logged and the dispatcher still appends the blank separator. -/
theorem handler_failure_isolated_witness :
    process_file emptyCsvSample [fallbackEntry, csvEntry] =
      processFrom emptyCsvSample 0 [fallbackEntry] ++
        (Event.called 1 :: Event.debugErr 1 ::
          (processFrom emptyCsvSample 2 [] ++ [Event.info ""])) :=
  (handler_failure_isolated emptyCsvSample [fallbackEntry] [] csvEntry
      (by decide) (by decide)).1

/-- Claim C3 counterexample: on the `.txt` file containing
`"a\nbb\nccc\n"` the text handler does not report a line count of 3:
Python's `split` on the newline separator yields four segments. -/
theorem process_txt_sample_cex :
    (process_txt txtSample).lines ≠ ["Lines 3", "Words 3"] := by decide

/-- Claim C3 (amended): on the `.txt` file containing `"a\nbb\nccc\n"`
the text handler reports line count 4 (the newline-delimited segments
are `"a"`, `"bb"`, `"ccc"` and the trailing `""`) and word count 3. -/
theorem process_txt_sample_report :
    (process_txt txtSample).lines = ["Lines 4", "Words 3"] := by decide

/-- Claim C4: discovery always lists the built-in fallback registration
first, under the catch-all pattern that matches every extension string
(including the empty extension), so the fallback handler is invoked for
every processed file; with zero external handler providers discovery
yields exactly the fallback registration. -/
theorem discovery_fallback_first (modules : List TopModule) :
    (find_all_functions modules).head? = some (catchAll, defaultFunc) ∧
    (∀ s : String, reMatch catchAll s = true) ∧
    (∀ path : PyPath,
      Event.called 0 ∈
        process_file path (toEntries (find_all_functions modules))) ∧
    ((∀ m ∈ modules, moduleNameOk m.name = false) →
      find_all_functions modules = [(catchAll, defaultFunc)]) := by
  refine ⟨rfl, catchAll_matches_any, ?_, ?_⟩
  · intro path
    have hget : (toEntries (find_all_functions modules)).get? 0 =
        some ⟨catchAll, plugins.default⟩ := rfl
    have hmem := (@mem_processFrom_called path
        (toEntries (find_all_functions modules)) 0 0
        ⟨catchAll, plugins.default⟩ hget).mpr
      (catchAll_matches_any path.suffix)
    simp only [process_file, List.mem_append]
    exact Or.inl hmem
  · intro hall
    simp only [find_all_functions, flatMap_processTopModule_nil hall,
      List.append_nil]
    rfl

/-- Witness for C4: discovery over an empty module environment. -/
theorem discovery_fallback_first_witness :
    find_all_functions [] = [(catchAll, defaultFunc)] :=
  (discovery_fallback_first []).2.2.2 (by simp)

/-- Claim C5: discovery skips a broken extension source — a top-level
module whose import raises, a package whose import raises, or a
submodule whose import raises — taking no entries from it and returning
exactly the entries of all remaining sources; the discovery function is
total, so no per-source failure escapes to the caller. -/
theorem discovery_skips_broken_sources (ms1 ms2 : List TopModule)
    (n : String) (subs1 subs2 : List (Option (List PluginFunc))) :
    find_all_functions (ms1 ++ TopModule.plain n none :: ms2) =
      find_all_functions (ms1 ++ ms2) ∧
    find_all_functions (ms1 ++ TopModule.pkg n none :: ms2) =
      find_all_functions (ms1 ++ ms2) ∧
    find_all_functions
        (ms1 ++ TopModule.pkg n (some (subs1 ++ none :: subs2)) :: ms2) =
      find_all_functions
        (ms1 ++ TopModule.pkg n (some (subs1 ++ subs2)) :: ms2) := by
  refine ⟨?_, ?_, ?_⟩
  · simp [find_all_functions, List.flatMap_append, List.flatMap_cons,
      processTopModule, findFunctionsInModule, TopModule.name]
  · simp [find_all_functions, List.flatMap_append, List.flatMap_cons,
      processTopModule, findFunctionsInModule, TopModule.name]
  · by_cases hn : moduleNameOk n = true <;>
      simp [find_all_functions, List.flatMap_append, List.flatMap_cons,
        processTopModule, findFunctionsInModule, TopModule.name, hn]

/-- Claim C6: on a `.csv` file whose rows have differing column counts,
the CSV pattern matches the extension, the handler succeeds and reports
the number of rows literally present and the maximum column count taken
across all rows. -/
theorem process_csv_reports_rows_and_max_columns (path : PyPath)
    (hext : path.suffix = ".csv")
    (hdiff : ∃ r1 ∈ path.csvRows, ∃ r2 ∈ path.csvRows,
      r1.length ≠ r2.length) :
    reMatch csvPattern path.suffix = true ∧
    (process_csv path).raises = false ∧
    (process_csv path).lines =
      ["Rows " ++ toString path.csvRows.length,
       "Columns " ++ toString (pyMaxNat (path.csvRows.map List.length))] ∧
    (∀ r ∈ path.csvRows,
      r.length ≤ pyMaxNat (path.csvRows.map List.length)) ∧
    (∃ r ∈ path.csvRows,
      r.length = pyMaxNat (path.csvRows.map List.length)) := by
  obtain ⟨r1, hr1, r2, hr2, hne⟩ := hdiff
  have hnil : path.csvRows ≠ [] := by
    intro h0
    rw [h0] at hr1
    simp at hr1
  have hempty : path.csvRows.isEmpty = false := by
    cases h : path.csvRows with
    | nil => exact absurd h hnil
    | cons a l => simp
  refine ⟨by rw [hext]; decide, ?_, ?_, ?_, ?_⟩
  · simp [process_csv, hempty]
  · simp [process_csv, hempty]
  · intro r hr
    exact le_pyMaxNat (List.mem_map_of_mem List.length hr)
  · have hmapnil : path.csvRows.map List.length ≠ [] := by
      cases h : path.csvRows with
      | nil => exact absurd h hnil
      | cons a l => simp
    obtain ⟨r, hr, hlen⟩ := List.mem_map.mp (pyMaxNat_mem hmapnil)
    exact ⟨r, hr, hlen⟩

/-- Witness for C6 on a concrete ragged CSV file. -/
theorem process_csv_reports_rows_and_max_columns_witness :
    (process_csv csvSample).lines = ["Rows 3", "Columns 3"] :=
  (process_csv_reports_rows_and_max_columns csvSample rfl (by decide)).2.2.1

/-- Claim C7: registration via the `file_type` decorator is cumulative
and deduplicating: after any sequence of calls the handler's pattern set
is the union of all patterns passed in all calls, registering the same
pattern twice equals registering it once, and a later call never removes
patterns attached earlier; registration is a total function with no
error conditions. -/
theorem file_type_cumulative_dedup :
    (∀ calls : List (List String),
      (registrationState calls).getD ∅ = (calls.flatMap id).toFinset) ∧
    (∀ (cs : List (List String)) (c : List String),
      registrationState (cs ++ [c, c]) = registrationState (cs ++ [c])) ∧
    (∀ (cs : List (List String)) (c : List String),
      (registrationState cs).getD ∅ ⊆
        (registrationState (cs ++ [c])).getD ∅) := by
  refine ⟨?_, ?_, ?_⟩
  · intro calls
    cases calls with
    | nil => simp [registrationState]
    | cons ps rest =>
      show (List.foldl (fun st p => file_type p st)
          (some ps.toFinset) rest).getD ∅ = _
      rw [foldl_file_type_some rest ps.toFinset]
      simp [List.flatMap_cons, List.toFinset_append]
  · intro cs c
    simp only [registrationState, List.foldl_append]
    cases List.foldl (fun st ps => file_type ps st) none cs with
    | none => simp [file_type, Finset.union_self]
    | some s => simp [file_type, Finset.union_assoc, Finset.union_self]
  · intro cs c
    simp only [registrationState, List.foldl_append]
    cases List.foldl (fun st ps => file_type ps st) none cs with
    | none => simp [file_type]
    | some s => simp [file_type, Finset.subset_union_left]

/-- Claim C8: the tool is deterministic across runs: the registry is a
pure function of the installed providers and the collected file list
does not depend on the order in which the traversal enumerates the
files, so two runs over the same unchanged tree with the same providers
produce identical output. -/
theorem run_deterministic (fs : String → PyPath) (modules : List TopModule)
    (paths1 paths2 : List String) (h : paths1.Perm paths2) :
    find_all_files paths1 = find_all_files paths2 ∧
    mainRun fs modules paths1 = mainRun fs modules paths2 := by
  have hfiles : find_all_files paths1 = find_all_files paths2 := by
    have hd : paths1.dedup.Perm paths2.dedup := h.dedup
    have hp1 : (find_all_files paths1).Perm paths1.dedup :=
      List.perm_insertionSort _ _
    have hp2 : (find_all_files paths2).Perm paths2.dedup :=
      List.perm_insertionSort _ _
    have hs1 : List.Sorted (fun a b => a ≤ b) (find_all_files paths1) :=
      List.sorted_insertionSort _ _
    have hs2 : List.Sorted (fun a b => a ≤ b) (find_all_files paths2) :=
      List.sorted_insertionSort _ _
    exact List.eq_of_perm_of_sorted (hp1.trans (hd.trans hp2.symm)) hs1 hs2
  refine ⟨hfiles, ?_⟩
  simp only [mainRun]
  rw [hfiles]

/-- Witness for C8: two enumeration orders of the same two files. -/
theorem run_deterministic_witness :
    mainRun (fun _ => noExtSample) [] ["b", "a"] =
      mainRun (fun _ => noExtSample) [] ["a", "b"] :=
  (run_deterministic (fun _ => noExtSample) [] ["b", "a"] ["a", "b"]
      (List.Perm.swap "a" "b" [])).2

/-- Claim C9: the fallback handler's second output line is exactly
`"File"` when the path has no extension, and the upper-cased extension
followed by `" file"` when the extension is non-empty. -/
theorem default_second_line (path : PyPath) :
    (path.suffix = "" →
      (plugins.default path).lines.get? 1 = some "File") ∧
    (path.suffix ≠ "" →
      (plugins.default path).lines.get? 1 =
        some (path.suffix.toUpper ++ " file")) := by
  constructor
  · intro h
    simp [plugins.default, h]
  · intro h
    simp [plugins.default, h]

/-- Witness for C9: a concrete extensionless file. -/
theorem default_second_line_witness :
    (plugins.default noExtSample).lines.get? 1 = some "File" :=
  (default_second_line noExtSample).1 rfl

/-- Claim C10: per-handler output emission is all-or-nothing: every
`info` emission of a dispatch run is either the blank separator or the
complete joined line sequence of a non-raising matching handler, so a
handler that raises after yielding some lines contributes none of them
to the output. -/
theorem handler_output_all_or_nothing (path : PyPath)
    (entries : List Entry) (s : String)
    (hmem : Event.info s ∈ process_file path entries) :
    s = "" ∨ ∃ e ∈ entries, reMatch e.pattern path.suffix = true ∧
      (e.handler path).raises = false ∧
      s = String.intercalate "\n" (e.handler path).lines := by
  simp only [process_file, List.mem_append] at hmem
  rcases hmem with h | h
  · exact Or.inr (@mem_processFrom_info path entries 0 s h)
  · simp at h
    exact Or.inl h

/-- Witness for C10: the only `info` event of a run where the sole
matching handler raises is the blank separator. -/
theorem handler_output_all_or_nothing_witness :
    ("" : String) = "" ∨ ∃ e ∈ [csvEntry],
      reMatch e.pattern emptyCsvSample.suffix = true ∧
      (e.handler emptyCsvSample).raises = false ∧
      ("" : String) =
        String.intercalate "\n" (e.handler emptyCsvSample).lines :=
  handler_output_all_or_nothing emptyCsvSample [csvEntry] "" (by decide)
